import Mathlib

/-
Verification of the natural-language specification of three Python scripts of
the poky repository against a shallow embedding of their code:
  meta/lib/bbconfigbuild/configfragments.py      (config-fragment manager)
  meta/lib/bblayers/setupwriters/oe-local-copy.py (local-copy manifest writer)
  scripts/lib/wic/plugins/source/bootimg-pcbios.py (pcbios boot partition plugin)

File contents are modelled as Lean lists of characters; Python readlines is
modelled by splitLines (each line keeps its terminating newline, a final
unterminated line is kept as-is); Python str.strip is modelled by pyStrip;
Python str.split(sep) is modelled through findSplit (leftmost occurrence of a
nonempty separator, scanning left to right, non-overlapping).  Fallible code
is modelled with Except; external command execution is modelled by returning
the list of commands the code would issue.
-/

set_option maxHeartbeats 1000000

/-- Whitespace characters stripped by Python str.strip (ASCII subset). -/
def isPySpace (c : Char) : Bool :=
  c = ' ' || c = '\t' || c = '\n' || c = '\r' || c = '\x0b' || c = '\x0c'

/-- Model of Python str.strip: remove leading and trailing whitespace. -/
def pyStrip (l : List Char) : List Char :=
  ((l.dropWhile isPySpace).reverse.dropWhile isPySpace).reverse

/-- Model of Python file.readlines on a file content: split into lines, each
line keeping its terminating newline; a final chunk without a newline is kept
as a last line; the empty content yields no lines. -/
def splitLines : List Char → List (List Char)
  | [] => []
  | c :: cs =>
    if c = '\n' then ['\n'] :: splitLines cs
    else
      match splitLines cs with
      | [] => [[c]]
      | l :: ls => (c :: l) :: ls

/-- A well-formed single line: nonempty, and no newline before its last
character. -/
def isLine (l : List Char) : Prop :=
  l ≠ [] ∧ ∀ c ∈ l.dropLast, c ≠ '\n'

/-- A line that ends with a newline character. -/
def terminatedLine (l : List Char) : Prop :=
  l.getLast? = some '\n'

/-- Well-formed output of readlines: every line is a line, and every line but
the last is newline-terminated. -/
def WFLines : List (List Char) → Prop
  | [] => True
  | l :: ls => isLine l ∧ (ls = [] ∨ (terminatedLine l ∧ WFLines ls))

theorem WFLines_cons_of {l : List Char} {ls : List (List Char)}
    (hl : isLine l) (ht : terminatedLine l) (hls : WFLines ls) :
    WFLines (l :: ls) := by
  exact ⟨hl, Or.inr ⟨ht, hls⟩⟩

theorem splitLines_cons_newline (cs : List Char) :
    splitLines ('\n' :: cs) = ['\n'] :: splitLines cs := by
  rw [splitLines]
  simp

theorem splitLines_cons_ne (c : Char) (cs : List Char) (h : c ≠ '\n') :
    splitLines (c :: cs) =
      match splitLines cs with
      | [] => [[c]]
      | l :: ls => (c :: l) :: ls := by
  rw [splitLines, if_neg h]

/-- Joining the lines of a content gives back the content. -/
theorem join_splitLines : ∀ cs : List Char, (splitLines cs).flatten = cs := by
  intro cs
  induction cs with
  | nil => rfl
  | cons c cs ih =>
    by_cases h : c = '\n'
    · subst h
      simp [splitLines_cons_newline, ih]
    · rw [splitLines_cons_ne c cs h]
      cases hs : splitLines cs with
      | nil =>
        rw [hs] at ih
        simp at ih
        simp [ih]
      | cons l ls =>
        rw [hs] at ih
        simp at ih ⊢
        exact ih

theorem getLast?_cons_of_ne_nil {l : List Char} (c : Char) (h : l ≠ []) :
    (c :: l).getLast? = l.getLast? := by
  cases l with
  | nil => exact absurd rfl h
  | cons x xs => simp [List.getLast?_cons_cons]

/-- splitLines always produces well-formed lines. -/
theorem wf_splitLines : ∀ cs : List Char, WFLines (splitLines cs) := by
  intro cs
  induction cs with
  | nil => trivial
  | cons c cs ih =>
    by_cases h : c = '\n'
    · subst h
      rw [splitLines, if_pos rfl]
      cases hs : splitLines cs with
      | nil => exact ⟨⟨by simp, by simp⟩, Or.inl rfl⟩
      | cons l ls =>
        rw [hs] at ih
        exact WFLines_cons_of ⟨by simp, by simp⟩ (by simp [terminatedLine]) ih
    · rw [splitLines, if_neg h]
      cases hs : splitLines cs with
      | nil => exact ⟨⟨by simp, by simp [h]⟩, Or.inl rfl⟩
      | cons l ls =>
        rw [hs] at ih
        obtain ⟨⟨hlne, hlin⟩, hrest⟩ := ih
        refine ⟨⟨by simp, ?_⟩, ?_⟩
        · intro d hd
          rw [List.dropLast_cons_of_ne_nil hlne] at hd
          rcases List.mem_cons.mp hd with rfl | hd
          · exact h
          · exact hlin d hd
        · rcases hrest with hrest | ⟨hterm, hwf⟩
          · exact Or.inl hrest
          · refine Or.inr ⟨?_, hwf⟩
            unfold terminatedLine at *
            rwa [getLast?_cons_of_ne_nil c hlne]

/-- splitLines of a single well-formed line is that line alone. -/
theorem splitLines_single : ∀ l : List Char, isLine l → splitLines l = [l] := by
  intro l
  induction l with
  | nil => intro h; exact absurd rfl h.1
  | cons c l ih =>
    intro ⟨_, hin⟩
    cases l with
    | nil =>
      by_cases h : c = '\n'
      · subst h; rfl
      · rw [splitLines, if_neg h]; rfl
    | cons d l' =>
      have hc : c ≠ '\n' := by
        apply hin
        rw [List.dropLast_cons_of_ne_nil (by simp)]
        exact List.mem_cons_self _ _
      rw [splitLines, if_neg hc]
      have : splitLines (d :: l') = [d :: l'] := by
        apply ih
        refine ⟨by simp, ?_⟩
        intro e he
        apply hin
        rw [List.dropLast_cons_of_ne_nil (by simp)]
        exact List.mem_cons_of_mem _ he
      rw [this]

/-- splitLines distributes over prepending a newline-terminated line. -/
theorem splitLines_term_append :
    ∀ l : List Char, isLine l → terminatedLine l →
      ∀ rest : List Char, splitLines (l ++ rest) = l :: splitLines rest := by
  intro l
  induction l with
  | nil => intro h; exact absurd rfl h.1
  | cons c l ih =>
    intro ⟨_, hin⟩ hterm rest
    cases l with
    | nil =>
      have : c = '\n' := by
        simpa [terminatedLine] using hterm
      subst this
      rw [List.cons_append, List.nil_append, splitLines, if_pos rfl]
    | cons d l' =>
      have hc : c ≠ '\n' := by
        apply hin
        rw [List.dropLast_cons_of_ne_nil (by simp)]
        exact List.mem_cons_self _ _
      rw [List.cons_append, splitLines, if_neg hc]
      have hrec : splitLines ((d :: l') ++ rest) = (d :: l') :: splitLines rest := by
        apply ih
        · refine ⟨by simp, ?_⟩
          intro e he
          apply hin
          rw [List.dropLast_cons_of_ne_nil (by simp)]
          exact List.mem_cons_of_mem _ he
        · unfold terminatedLine at *
          rwa [getLast?_cons_of_ne_nil c (by simp)] at hterm
      rw [hrec]

/-- Splitting the join of well-formed lines gives back exactly those lines. -/
theorem splitLines_join_of_wf :
    ∀ ls : List (List Char), WFLines ls → splitLines ls.flatten = ls := by
  intro ls
  induction ls with
  | nil => intro; rfl
  | cons l ls ih =>
    intro ⟨hl, hrest⟩
    rcases hrest with hnil | ⟨hterm, hwf⟩
    · subst hnil
      simp only [List.flatten_cons, List.flatten_nil, List.append_nil]
      exact splitLines_single l hl
    · rw [List.flatten_cons, splitLines_term_append l hl hterm, ih hwf]

/-- Filtering preserves well-formedness of a line list. -/
theorem wf_filter (p : List Char → Bool) :
    ∀ ls : List (List Char), WFLines ls → WFLines (ls.filter p) := by
  intro ls
  induction ls with
  | nil => intro; trivial
  | cons l ls ih =>
    intro ⟨hl, hrest⟩
    rcases hrest with hnil | ⟨hterm, hwf⟩
    · subst hnil
      by_cases hp : p l
      · simpa [List.filter, hp] using ⟨hl, Or.inl rfl⟩
      · simp only [List.filter_cons, hp]
        simp [List.filter]
        trivial
    · rw [List.filter_cons]
      by_cases hp : p l
      · rw [if_pos hp]
        exact WFLines_cons_of hl hterm (ih hwf)
      · rw [if_neg hp]
        exact ih hwf

/-- splitLines distributes over append when the left content is empty or
newline-terminated. -/
theorem splitLines_append :
    ∀ conf : List Char, (conf = [] ∨ conf.getLast? = some '\n') →
      ∀ rest : List Char,
        splitLines (conf ++ rest) = splitLines conf ++ splitLines rest := by
  intro conf
  induction conf with
  | nil => intros; rfl
  | cons c conf ih =>
    intro h rest
    rcases h with h | h
    · exact absurd h (by simp)
    · by_cases hc : c = '\n'
      · subst hc
        cases conf with
        | nil =>
          rw [List.cons_append, List.nil_append, splitLines_cons_newline,
              splitLines_cons_newline]
          rfl
        | cons d conf' =>
          have h' : (d :: conf').getLast? = some '\n' := by
            rwa [getLast?_cons_of_ne_nil '\n' (by simp)] at h
          rw [List.cons_append, splitLines_cons_newline, ih (Or.inr h') rest,
              splitLines_cons_newline, List.cons_append]
      · cases conf with
        | nil =>
          exfalso
          simp [List.getLast?] at h
          exact hc h
        | cons d conf' =>
          have h' : (d :: conf').getLast? = some '\n' := by
            rwa [getLast?_cons_of_ne_nil c (by simp)] at h
          have hne : splitLines (d :: conf') ≠ [] := by
            intro hcontra
            have := join_splitLines (d :: conf')
            rw [hcontra] at this
            simp at this
          rw [List.cons_append, splitLines_cons_ne c _ hc,
              splitLines_cons_ne c _ hc, ih (Or.inr h') rest]
          cases hs : splitLines (d :: conf') with
          | nil => exact absurd hs hne
          | cons l ls => rfl

/-- Leftmost occurrence of a nonempty separator: returns the part before the
occurrence and the part after it (Python str.split takes the text strictly
before the match and resumes scanning strictly after it).  For a nonempty
separator c :: s, the rest after a match at the head of c :: cs is
cs.drop s.length, which is what the drop (sep.length - 1) below computes. -/
def findSplit (sep : List Char) : List Char → Option (List Char × List Char)
  | [] => none
  | c :: cs =>
    if sep.isPrefixOf (c :: cs) then some ([], cs.drop (sep.length - 1))
    else (findSplit sep cs).map (fun pr => (c :: pr.1, pr.2))

theorem findSplit_rest_length {sep s : List Char} {pr : List Char × List Char}
    (h : findSplit sep s = some pr) : pr.2.length < s.length := by
  induction s generalizing pr with
  | nil => simp [findSplit] at h
  | cons c cs ih =>
    rw [findSplit] at h
    by_cases hp : sep.isPrefixOf (c :: cs)
    · rw [if_pos hp] at h
      obtain rfl : ([], cs.drop (sep.length - 1)) = pr := Option.some.inj h
      simp only [List.length_drop, List.length_cons]
      omega
    · rw [if_neg hp] at h
      cases hfs : findSplit sep cs with
      | none => rw [hfs] at h; simp at h
      | some pr' =>
        rw [hfs] at h
        simp only [Option.map_some'] at h
        obtain rfl := Option.some.inj h
        have := ih hfs
        simp only [List.length_cons]
        omega

/-- Fuel-bounded scan to the segment after the last separator occurrence;
the fuel only bounds the number of occurrences consumed and s.length + 1 is
always enough (each step strictly shortens the text). -/
def splitLastAux (sep : List Char) : Nat → List Char → List Char
  | 0, s => s
  | fuel + 1, s =>
    match findSplit sep s with
    | none => s
    | some pr => splitLastAux sep fuel pr.2

/-- Model of Python s.split(sep)[-1] for a nonempty separator: the text after
the last (left-to-right, non-overlapping) occurrence of sep, or all of s when
sep does not occur. -/
def splitLast (sep s : List Char) : List Char :=
  splitLastAux sep (s.length + 1) s

/-- Model of Python s.split(sep)[0] for a nonempty separator: the text before
the first occurrence of sep, or all of s when sep does not occur. -/
def splitFirst (sep s : List Char) : List Char :=
  match findSplit sep s with
  | none => s
  | some pr => pr.1

theorem splitLastAux_congr (sep : List Char) :
    ∀ fuel₁ fuel₂ s, s.length < fuel₁ → s.length < fuel₂ →
      splitLastAux sep fuel₁ s = splitLastAux sep fuel₂ s := by
  intro fuel₁
  induction fuel₁ with
  | zero => intro fuel₂ s h₁; omega
  | succ fuel₁ ih =>
    intro fuel₂ s h₁ h₂
    cases fuel₂ with
    | zero => omega
    | succ fuel₂ =>
      rw [splitLastAux, splitLastAux]
      cases hfs : findSplit sep s with
      | none => rfl
      | some pr =>
        have hlen := findSplit_rest_length hfs
        exact ih fuel₂ pr.2 (by omega) (by omega)

theorem splitLast_of_none {sep s : List Char} (h : findSplit sep s = none) :
    splitLast sep s = s := by
  rw [splitLast, splitLastAux, h]

theorem splitLast_step {sep s : List Char} {pr : List Char × List Char}
    (h : findSplit sep s = some pr) : splitLast sep s = splitLast sep pr.2 := by
  have hlen := findSplit_rest_length h
  rw [splitLast, splitLastAux, h, splitLast]
  exact splitLastAux_congr sep (s.length) (pr.2.length + 1) pr.2 hlen (by omega)

/-- If the separator has no occurrence starting before position a.length,
then the leftmost occurrence in a ++ (sep ++ b) is the explicit one. -/
theorem findSplit_append {sep : List Char} (hsep : sep ≠ []) :
    ∀ a b : List Char,
      (∀ i, i < a.length → sep.isPrefixOf ((a ++ (sep ++ b)).drop i) = false) →
      findSplit sep (a ++ (sep ++ b)) = some (a, b) := by
  intro a
  induction a with
  | nil =>
    intro b _
    cases sep with
    | nil => exact absurd rfl hsep
    | cons c s =>
      have hpre : (c :: s).isPrefixOf (c :: (s ++ b)) = true := by
        simp only [List.isPrefixOf_iff_prefix]
        exact ⟨b, by simp⟩
      rw [List.nil_append, List.cons_append, findSplit, if_pos hpre]
      simp [List.drop_left]
  | cons x a ih =>
    intro b h
    have h0 : sep.isPrefixOf (x :: (a ++ (sep ++ b))) = false := by
      have := h 0 (by simp)
      simpa using this
    rw [List.cons_append, findSplit, if_neg (by simp [h0]),
        ih b (fun i hi => by simpa [List.drop_succ_cons] using h (i + 1) (by simpa using hi))]
    rfl

theorem findSplit_eq_none {sep : List Char} :
    ∀ s : List Char, (∀ i, sep.isPrefixOf (s.drop i) = false) →
      findSplit sep s = none := by
  intro s
  induction s with
  | nil => intro; rfl
  | cons c cs ih =>
    intro h
    have h0 : sep.isPrefixOf (c :: cs) = false := by
      have := h 0
      simpa using this
    rw [findSplit, if_neg (by simp [h0]),
        ih (fun i => by simpa [List.drop_succ_cons] using h (i + 1))]
    rfl

/-- Scanning for a single character not occurring in the text before it. -/
theorem findSplit_single {c : Char} :
    ∀ stem ext : List Char, c ∉ stem →
      findSplit [c] (stem ++ c :: ext) = some (stem, ext) := by
  intro stem
  induction stem with
  | nil =>
    intro ext _
    rw [List.nil_append, findSplit, if_pos (by simp [List.isPrefixOf])]
    rfl
  | cons s₀ stem ih =>
    intro ext h
    have hne : c ≠ s₀ := fun hc => h (by simp [hc])
    rw [List.cons_append, findSplit,
        if_neg (by simp [List.isPrefixOf, hne]),
        ih ext (fun hc => h (List.mem_cons_of_mem _ hc))]
    rfl

/-
Embedding of meta/lib/bbconfigbuild/configfragments.py.

A file content is a List Char.  The BBPATH environment and the conf/local.conf
path are irrelevant to the logic: addFragment and removeFragment take the
current content of the local configuration file and return the content the
code writes back (addFragment returns the unchanged content when the code
returns early without rewriting the file).
-/

/-- The line appended or removed by add-fragment and remove-fragment:
Python "require conf/fragments/.inc\n".format inserts the name in between. -/
def requireLine (name : List Char) : List Char :=
  "require conf/fragments/".data ++ name ++ ".inc\n".data

/-- Error message of do_add_fragment for an unknown fragment (source quotes
around list-fragments elided). -/
def addErrMsg (name : List Char) : String :=
  "Fragment " ++ String.mk name ++
    " does not exist; use list-fragments to see the full list."

/-- do_add_fragment: fail when the fragment was not discovered; return the
file content unchanged when some line equals the require line; otherwise
write the joined lines with the require line appended. -/
def addFragment (fragExists : Bool) (name conf : List Char) :
    Except String (List Char) :=
  if fragExists = false then .error (addErrMsg name)
  else
    let appendline := requireLine name
    let lines := splitLines conf
    if appendline ∈ lines then .ok conf
    else .ok ((lines ++ [appendline]).flatten)

/-- do_remove_fragment: write back the join of all lines different from the
require line. -/
def removeFragment (name conf : List Char) : List Char :=
  ((splitLines conf).filter (fun l => l != requireLine name)).flatten

/-- Error message of get_fragment_info; Python formats the offending path at
the end of the message. -/
def fragmentErrMsg (path : String) : String :=
  "Please add a one-line summary followed by a description as #-prefixed comments at the beginning of " ++ path

/-- The loop of get_fragment_info over the lines of the file: stop at the
first line not starting with the comment character; while the summary is
still empty (Python falsy), replace it with the stripped line content;
afterwards append stripped line contents to the description. -/
def scanLoop : (List Char × List (List Char)) → List (List Char) → (List Char × List (List Char))
  | acc, [] => acc
  | (summ, desc), l :: ls =>
    if (['#'].isPrefixOf l) = false then (summ, desc)
    else if summ = [] then scanLoop (pyStrip (l.drop 1), desc) ls
    else scanLoop (summ, desc ++ [pyStrip (l.drop 1)]) ls

/-- get_fragment_info: run the scan over the readlines of the content and
fail when the summary or the description is empty (Python falsy). -/
def get_fragment_info (path : String) (content : List Char) :
    Except String (List Char × List (List Char)) :=
  let st := scanLoop ([], []) (splitLines content)
  if st.1 = [] ∨ st.2 = [] then .error (fragmentErrMsg path)
  else .ok st

/-- The separator used by discover_fragments on the walked directory. -/
def cfSep : List Char := "conf/fragments/".data

/-- The fragment name derived by discover_fragments:
topdir.split(sep)[-1] joined by a slash with fragmentfile.split(dot)[0]. -/
def fragmentName (topdir filename : List Char) : List Char :=
  splitLast cfSep topdir ++ '/' :: splitFirst ['.'] filename

/-- Helper: fragment content of the leading comment block, as the code strips
it (content of each comment line, without the leading comment character,
stripped of surrounding whitespace). -/
def fragmentCommentContents (content : List Char) : List (List Char) :=
  ((splitLines content).takeWhile (fun l => ['#'].isPrefixOf l)).map
    (fun l => pyStrip (l.drop 1))

theorem scanLoop_of_ne_nil :
    ∀ (ls : List (List Char)) (summ : List Char) (desc : List (List Char)),
      summ ≠ [] →
      scanLoop (summ, desc) ls =
        (summ, desc ++ (ls.takeWhile (fun l => ['#'].isPrefixOf l)).map
          (fun l => pyStrip (l.drop 1))) := by
  intro ls
  induction ls with
  | nil => intro summ desc _; simp [scanLoop]
  | cons l ls ih =>
    intro summ desc hs
    rw [scanLoop]
    by_cases hp : ['#'].isPrefixOf l
    · rw [if_neg (by simp [hp]), if_neg hs, ih _ _ hs]
      simp [List.takeWhile_cons, hp]
    · rw [if_pos (by simp [hp])]
      simp [List.takeWhile_cons, hp]

theorem scanLoop_empty_summary :
    ∀ (ls : List (List Char)) (desc : List (List Char)),
      scanLoop ([], desc) ls =
        match ((ls.takeWhile (fun l => ['#'].isPrefixOf l)).map
            (fun l => pyStrip (l.drop 1))).dropWhile (fun l => l.isEmpty) with
        | [] => ([], desc)
        | s :: tl => (s, desc ++ tl) := by
  intro ls
  induction ls with
  | nil => intro desc; simp [scanLoop]
  | cons l ls ih =>
    intro desc
    rw [scanLoop]
    by_cases hp : ['#'].isPrefixOf l
    · rw [if_neg (by simp [hp]), if_pos rfl]
      by_cases hempty : pyStrip (l.drop 1) = []
      · rw [hempty, ih desc]
        have hempty' : pyStrip l.tail = [] := by rwa [← List.drop_one]
        simp [List.takeWhile_cons, hp, List.dropWhile_cons, hempty',
              List.drop_one]
      · rw [scanLoop_of_ne_nil ls _ desc hempty]
        have hempty' : pyStrip l.tail ≠ [] := by rwa [← List.drop_one]
        simp [List.takeWhile_cons, hp, List.dropWhile_cons,
              List.isEmpty_iff, hempty', List.drop_one]
    · rw [if_pos (by simp [hp])]
      simp [List.takeWhile_cons, hp]

/-
Embedding of meta/lib/bblayers/setupwriters/oe-local-copy.py (do_write).

Python dictionaries holding JSON-like data are modelled as association lists
over a small JSON value type.  make_repo_config lives outside this repository
fragment, so its result (one dictionary per repository source, holding at
least the originpath entry and the git-remote dictionary) is the input of the
model.  The observable behaviour is the ordered list of effects: creating the
destination directory, writing the JSON file (with the sort_keys and indent
arguments of json.dump), and running the external oe-setup-layers command.

One decisive module-level fact: the source file imports only logging and
json, yet do_write references os.path.exists, os.makedirs, os.path.abspath,
os.path.join and bb.process.run.  Python resolves global names at use time
against the module namespace, so the very first statement of do_write,
os.path.exists(args.destdir), raises NameError on every call and nothing
after it is reachable.  do_write below models the call including this name
resolution; do_write_body models the statement sequence of the function body
as it would execute if the names os and bb resolved (the evident intent of
the code, against which the specification was written).
-/

inductive JVal where
  | str : String → JVal
  | obj : List (String × JVal) → JVal

/-- Python dict lookup d[k] (None when the key is absent; the caller turns
the absence into the KeyError the Python code would raise). -/
def jlookup (m : List (String × JVal)) (k : String) : Option JVal :=
  (m.find? (fun p => p.1 = k)).map (fun p => p.2)

/-- Python dict assignment d[k] = v: replace the value in place when the key
is present, append the binding otherwise. -/
def setKey : List (String × JVal) → String → JVal → List (String × JVal)
  | [], k, v => [(k, v)]
  | (k', v') :: rest, k, v =>
    if k' = k then (k, v) :: rest else (k', v') :: setKey rest k v

/-- Lookup along a path of keys through nested objects. -/
def getPath : JVal → List String → Option JVal
  | v, [] => some v
  | .obj m, k :: ks =>
    match jlookup m k with
    | some v => getPath v ks
    | none => none
  | .str _, _ :: _ => none

/-- The loop body of do_write over one repository dictionary r:
r [git-remote] [remotes] = dict of origin to dict of uri to r [originpath].
none models the KeyError or TypeError the Python code would raise when the
originpath key or the git-remote dictionary is missing. -/
def updateRepo (r : List (String × JVal)) : Option (List (String × JVal)) :=
  match jlookup r "originpath", jlookup r "git-remote" with
  | some origin, some (JVal.obj grFields) =>
      some (setKey r "git-remote"
        (JVal.obj (setKey grFields "remotes"
          (JVal.obj [("origin", JVal.obj [("uri", origin)])]))))
  | _, _ => none

inductive WriteEffect where
  | mkdirDest : WriteEffect
  | writeJson : JVal → Bool → Nat → WriteEffect
  | runSetupLayers : WriteEffect

/-- The manifest dictionary written by do_write. -/
def layersManifest (repos : List (String × List (String × JVal))) : JVal :=
  JVal.obj [("version", JVal.str "1.0"),
            ("sources", JVal.obj (repos.map (fun p => (p.1, JVal.obj p.2))))]

/-- The loop of do_write over repos.values(), updating every repository
dictionary in turn; none models the first KeyError aborting the function. -/
def updAll :
    List (String × List (String × JVal)) →
      Option (List (String × List (String × JVal)))
  | [] => some []
  | (n, r) :: rest =>
    match updateRepo r, updAll rest with
    | some r', some rest' => some ((n, r') :: rest')
    | _, _ => none

/-- The statement sequence of the body of do_write: make the destination
directory when it does not exist, fail when make_repo_config produced no
sources, update each repository dictionary in place, dump the manifest as
JSON with sorted keys and indent 4, and run the external setup-layers
command.  The returned pair is the ordered effect trace and the Python
outcome.  This body only executes if the global names os and bb resolve;
see do_write below for the name resolution of the actual module. -/
def do_write_body (destdirExists : Bool)
    (repos : List (String × List (String × JVal))) :
    List WriteEffect × Except String Unit :=
  let pre := if destdirExists then [] else [WriteEffect.mkdirDest]
  if repos.isEmpty then (pre, .error "Could not determine layer sources")
  else
    match updAll repos with
    | none => (pre, .error "KeyError")
    | some repos' =>
        (pre ++ [WriteEffect.writeJson (layersManifest repos') true 4,
                 WriteEffect.runSetupLayers], .ok ())

/-- The import statements of oe-local-copy.py: the module imports exactly
logging and json; neither os nor bb is ever imported or otherwise bound in
the module namespace. -/
def oeLocalCopyImports : List String := ["logging", "json"]

/-- A call to do_write of the oe-local-copy writer.  The first statement of
the body dereferences the global name os, which is resolved against the
module namespace at use time; since os is not among the module imports, the
call raises NameError before performing any effect (message quotes elided),
and the body is unreachable. -/
def do_write (destdirExists : Bool)
    (repos : List (String × List (String × JVal))) :
    List WriteEffect × Except String Unit :=
  if "os" ∈ oeLocalCopyImports then do_write_body destdirExists repos
  else ([], .error "NameError: name os is not defined")

theorem jlookup_setKey (k : String) (v : JVal) :
    ∀ m : List (String × JVal), jlookup (setKey m k v) k = some v := by
  intro m
  induction m with
  | nil => simp [setKey, jlookup, List.find?]
  | cons p rest ih =>
    by_cases h : p.1 = k
    · cases p
      rw [setKey]
      simp only at h
      rw [if_pos h]
      simp [jlookup, List.find?]
    · cases p
      rw [setKey]
      simp only at h
      rw [if_neg h]
      simpa [jlookup, List.find?_cons, h] using ih

/-- The shape guaranteed for every updated repository dictionary: its
git-remote entry holds a remotes entry equal to the synthetic origin remote
whose uri is the originpath of the source. -/
theorem updateRepo_shape {r r' : List (String × JVal)}
    (h : updateRepo r = some r') :
    ∀ origin, jlookup r "originpath" = some origin →
      getPath (JVal.obj r') ["git-remote", "remotes", "origin", "uri"] =
        some origin := by
  intro origin horigin
  unfold updateRepo at h
  rw [horigin] at h
  cases hgr : jlookup r "git-remote" with
  | none => rw [hgr] at h; simp at h
  | some gv =>
    rw [hgr] at h
    cases gv with
    | str s => simp at h
    | obj grFields =>
      simp only [Option.some.injEq] at h
      subst h
      simp only [getPath, jlookup_setKey]
      simp [jlookup, List.find?, getPath]

/-
Embedding of scripts/lib/wic/plugins/source/bootimg-pcbios.py.

The wic plugin entry points are modelled one by one.  External state that the
code only reads (bitbake variables, the filesystem, results of externally
executed preparation steps) appears as parameters; WicError is the error
message carried by Except.
-/

/-- Python str.startswith on whole strings, over the character lists. -/
def strStartsWith (s pre : String) : Bool :=
  pre.data.isPrefixOf s.data

/-- Python str.endswith on whole strings, over the character lists. -/
def strEndsWith (s suf : String) : Bool :=
  suf.data.reverse.isPrefixOf s.data.reverse

/-- Two-argument posixpath.join: an absolute second component discards the
first one. -/
def osPathJoin (a b : String) : String :=
  if strStartsWith b "/" then b
  else if a = "" ∨ strEndsWith a "/" then a ++ b
  else a ++ "/" ++ b

def missingLoaderMsg : String := "bootimg-pcbios requires a loader, none specified"

def unrecognizedLoaderMsg (l : String) : String :=
  "unrecognized bootimg-pcbios loader: " ++ l

/-- Error when bootloader.configfile is set but get_custom_config fails
(source message with percent formatting flattened). -/
def customCfgErrMsg (cf : String) : String :=
  "configfile is specified but failed to get it from " ++ cf

/-- do_configure_syslinux: either take a custom configuration (failing when
the resolver returns nothing or an empty, Python-falsy, text), or build the
syslinux.cfg text.  The splash check path is
os.path.join(cr_workdir, "/hdd/boot/splash.jpg"); fsExists is the
os.path.exists oracle.  The returned string is what the code writes to
cr_workdir/hdd/boot/syslinux.cfg. -/
def do_configure_syslinux (configfile : Option String)
    (getCustomConfig : String → Option String)
    (cr_workdir : String) (fsExists : String → Bool)
    (timeout rootdev appendStr kernelType : String) : Except String String :=
  match configfile with
  | some cf =>
    match getCustomConfig cf with
    | some cfg => if cfg = "" then .error (customCfgErrMsg cf) else .ok cfg
    | none => .error (customCfgErrMsg cf)
  | none =>
    let splash := osPathJoin cr_workdir "/hdd/boot/splash.jpg"
    let splashline := if fsExists splash then "menu background splash.jpg" else ""
    let conf := "PROMPT 0\n" ++ "TIMEOUT " ++ timeout ++ "\n" ++ "\n" ++
      "ALLOWOPTIONS 1\n" ++ "SERIAL 0 115200\n" ++ "\n" ++
      (if splashline = "" then "" else splashline ++ "\n") ++
      "DEFAULT boot\n" ++ "LABEL boot\n" ++
      "KERNEL " ++ ("/" ++ kernelType) ++ "\n" ++
      "APPEND label=boot root=" ++ rootdev ++ " " ++ appendStr ++ "\n"
    .ok conf

/-- Bool test used to state where the generated syslinux.cfg carries the
splash menu line. -/
def hasSplashLine (conf : String) : Bool :=
  decide (("menu background splash.jpg\n").data ∈ splitLines conf.data)

/-- do_configure_partition: the loader dispatch of the try block.  The
configuration work of the grub and syslinux branches is abstracted as the
outcome each branch would produce; a missing loader-pcbios key raises the
KeyError that the except clause turns into the missing-loader WicError, and
an unrecognized value raises the unrecognized-loader WicError. -/
def do_configure_partition (sourceParamsLoader : Option String)
    (grubOutcome syslinuxOutcome : Except String Unit) : Except String Unit :=
  match sourceParamsLoader with
  | none => .error missingLoaderMsg
  | some l =>
    if l = "grub" then grubOutcome
    else if l = "syslinux" then syslinuxOutcome
    else .error (unrecognizedLoaderMsg l)

structure PrepareResult where
  dosfsBlocks : Int
  syslinuxInstalled : Bool

/-- do_prepare_partition: loader dispatch identical to the configure phase,
then the block-count computation of the source: blocks from du on the staged
boot directory, extra blocks from part.get_extra_block_count(blocks), floored
at BOOTDD_EXTRA_SPACE, added to blocks and handed to mkdosfs -C.
BOOTDD_EXTRA_SPACE is imported from wic.misc, which is outside this
repository fragment, so it stays a parameter.  The external syslinux
bootstrap installer runs on the image only for the syslinux loader. -/
def do_prepare_partition (sourceParamsLoader : Option String)
    (grubPrep syslinuxPrep : Except String Unit)
    (duBlocks : Int) (get_extra_block_count : Int → Int)
    (bootddExtraSpace : Int) : Except String PrepareResult :=
  (match sourceParamsLoader with
   | none => Except.error missingLoaderMsg
   | some l =>
     if l = "grub" then grubPrep
     else if l = "syslinux" then syslinuxPrep
     else Except.error (unrecognizedLoaderMsg l)).bind (fun _ =>
  let blocks := duBlocks
  let extra_blocks := get_extra_block_count blocks
  let extra_blocks :=
    if extra_blocks < bootddExtraSpace then bootddExtraSpace else extra_blocks
  let blocks := blocks + extra_blocks
  .ok { dosfsBlocks := blocks,
        syslinuxInstalled := sourceParamsLoader == some "syslinux" })

inductive DiskCmd where
  | dd : String → String → DiskCmd
  | writeDeviceMap : String → String → DiskCmd
  | grubBiosSetup : String → String → String → DiskCmd

/-- Error for a missing MBR binary (source message with hint text and quote
characters condensed). -/
def missingMbrMsg (mbrfile : String) : String :=
  "Couldnt find " ++ mbrfile ++
    ". If using the -e option, do you have the right MACHINE set in local.conf? If not, is the bootimg_dir path correct?"

/-- do_install_disk: called once all partitions are assembled.  The caller
selected loader (the loader-pcbios source parameter of the wks file) is NOT
available to this entry point; the source constructs a fresh dictionary and
hardcodes source_params of loader-pcbios to grub, so the callerLoader
argument below is deliberately unused, exactly as in the code.  bootimgDir
models _get_bootimg_dir (none when neither candidate directory exists, which
the source turns into a WicError); mbrExists is the os.path.exists oracle on
the chosen mbr file. -/
def do_install_disk (callerLoader : Option String) (ptableFormat : String)
    (bootimgDir : Option String) (mbrExists : String → Bool)
    (workdir fullPath : String) : Except String (List DiskCmd) :=
  match bootimgDir with
  | none => .error "could not find correct bootimg_dir, exiting"
  | some bdir =>
    (if ptableFormat = "msdos" then
       (Except.ok (bdir ++ "/syslinux/" ++ "mbr.bin") : Except String String)
     else if ptableFormat = "gpt" then
       Except.ok (bdir ++ "/syslinux/" ++ "gptmbr.bin")
     else Except.error ("Unsupported partition table: " ++ ptableFormat)).bind
    (fun mbrfile =>
      if mbrExists mbrfile = false then .error (missingMbrMsg mbrfile)
      else
        let deviceMapPath := workdir ++ "/device.map"
        let cmds := [DiskCmd.dd mbrfile fullPath,
                     DiskCmd.writeDeviceMap deviceMapPath ("(hd0) " ++ fullPath)]
        let loaderPcbios := "grub"
        .ok (if loaderPcbios = "grub" then
               cmds ++ [DiskCmd.grubBiosSetup deviceMapPath
                          (workdir ++ "/hdd/boot/grub/i386-pc") fullPath]
             else cmds))

/- Helper lemmas shared by the fragment-manager claims. -/

theorem addFragment_mem {name conf : List Char}
    (h : requireLine name ∈ splitLines conf) :
    addFragment true name conf = .ok conf := by
  simp [addFragment, h]

theorem addFragment_not_mem {name conf : List Char}
    (h : requireLine name ∉ splitLines conf) :
    addFragment true name conf = .ok (conf ++ requireLine name) := by
  simp only [addFragment, if_neg (by simp : ¬(true = false))]
  rw [if_neg h]
  rw [List.flatten_append]
  simp [join_splitLines]

theorem removeFragment_lines (name conf : List Char) :
    splitLines (removeFragment name conf) =
      (splitLines conf).filter (fun l => l != requireLine name) :=
  splitLines_join_of_wf _ (wf_filter _ _ (wf_splitLines conf))

theorem removeFragment_not_mem {name conf : List Char}
    (h : requireLine name ∉ splitLines conf) :
    removeFragment name conf = conf := by
  unfold removeFragment
  rw [List.filter_eq_self.mpr, join_splitLines]
  intro a ha
  simp only [bne_iff_ne, ne_eq]
  intro heq
  exact h (heq ▸ ha)

theorem head_dropWhile_false {α : Type} (p : α → Bool) :
    ∀ (l : List α) (a : α) (res : List α),
      l.dropWhile p = a :: res → p a = false := by
  intro l
  induction l with
  | nil => intro a res h; simp at h
  | cons x xs ih =>
    intro a res h
    rw [List.dropWhile_cons] at h
    by_cases hp : p x
    · rw [if_pos hp] at h
      exact ih a res h
    · rw [if_neg hp] at h
      obtain ⟨rfl, -⟩ := List.cons.inj h
      exact Bool.of_not_eq_true hp

theorem requireLine_decomp (name : List Char) :
    requireLine name =
      ("require conf/fragments/".data ++ (name ++ ".inc".data)) ++ ['\n'] := by
  unfold requireLine
  have h : ".inc\n".data = ".inc".data ++ ['\n'] := by rfl
  rw [h]
  simp

theorem requireLine_isLine {name : List Char} (h : '\n' ∉ name) :
    isLine (requireLine name) ∧ terminatedLine (requireLine name) := by
  rw [requireLine_decomp]
  constructor
  · constructor
    · simp
    · intro c hc
      rw [List.dropLast_concat] at hc
      rcases List.mem_append.mp hc with hc | hc
      · intro heq
        subst heq
        revert hc
        decide
      · rcases List.mem_append.mp hc with hc | hc
        · intro heq; subst heq; exact h hc
        · intro heq
          subst heq
          revert hc
          decide
  · unfold terminatedLine
    rw [List.getLast?_concat]

/-- Claim C6: add-fragment fails when the fragment was not discovered;
when the local configuration already contains the exact require line the file
is left byte-for-byte unchanged (so a second add equals the first), and when
the line is absent the require line is appended exactly once at the end of
the content. -/
theorem claim_C6_add_fragment :
    ∀ (fragExists : Bool) (name conf : List Char),
      (fragExists = false →
        addFragment fragExists name conf = .error (addErrMsg name)) ∧
      (fragExists = true →
        (requireLine name ∈ splitLines conf →
          addFragment fragExists name conf = .ok conf) ∧
        (requireLine name ∉ splitLines conf →
          addFragment fragExists name conf = .ok (conf ++ requireLine name))) := by
  intro fragExists name conf
  refine ⟨?_, ?_⟩
  · intro h
    subst h
    simp [addFragment]
  · intro h
    subst h
    exact ⟨fun hm => addFragment_mem hm, fun hm => addFragment_not_mem hm⟩

theorem claim_C6_add_fragment_witness :
    addFragment false "x".data [] = .error (addErrMsg "x".data) ∧
    addFragment true "x".data (requireLine "x".data) =
      .ok (requireLine "x".data) ∧
    addFragment true "x".data [] = .ok (([] : List Char) ++ requireLine "x".data) := by
  refine ⟨(claim_C6_add_fragment false "x".data []).1 rfl, ?_, ?_⟩
  · exact ((claim_C6_add_fragment true "x".data (requireLine "x".data)).2 rfl).1
      (by decide)
  · exact ((claim_C6_add_fragment true "x".data []).2 rfl).2 (by decide)

/-- Claim C7: remove-fragment deletes exactly the lines equal to the require
line (the lines of the written content are the non-matching lines of the old
content, in order), and when no line matches the content is unchanged; no
error is possible. -/
theorem claim_C7_remove_fragment :
    ∀ (name conf : List Char),
      splitLines (removeFragment name conf) =
        (splitLines conf).filter (fun l => l != requireLine name) ∧
      (requireLine name ∉ splitLines conf → removeFragment name conf = conf) := by
  intro name conf
  exact ⟨removeFragment_lines name conf, fun h => removeFragment_not_mem h⟩

theorem claim_C7_remove_fragment_witness :
    removeFragment "x".data "abc\n".data = "abc\n".data :=
  (claim_C7_remove_fragment "x".data "abc\n".data).2 (by decide)

/-- Claim C10 counterexample: on a local.conf whose last line has no
terminating newline (content "foo"), add-fragment concatenates the require
line onto that final line: the original line "foo" is no longer among the
lines of the written file, so it is not preserved unchanged. -/
theorem claim_C10_counterexample :
    addFragment true "x".data "foo".data = .ok ("foo".data ++ requireLine "x".data) ∧
    "foo".data ∈ splitLines "foo".data ∧
    "foo".data ≠ requireLine "x".data ∧
    "foo".data ∉ splitLines ("foo".data ++ requireLine "x".data) := by
  refine ⟨?_, by decide, by decide, by decide⟩
  exact addFragment_not_mem (by decide)

/-- Claim C10 amended: when the configuration content is empty or ends with a
newline (and the fragment name has no newline), add appends the require line
as a new final line, preserving every existing line unchanged and in order;
for a content whose final line is unterminated the appended text still only
extends the end of the file but merges with that final line.  Remove always
rewrites the file to exactly the non-matching lines, in order. -/
theorem claim_C10_frame :
    ∀ (name conf : List Char),
      ('\n' ∉ name → (conf = [] ∨ conf.getLast? = some '\n') →
        requireLine name ∉ splitLines conf →
        addFragment true name conf = .ok (conf ++ requireLine name) ∧
        splitLines (conf ++ requireLine name) =
          splitLines conf ++ [requireLine name]) ∧
      splitLines (removeFragment name conf) =
        (splitLines conf).filter (fun l => l != requireLine name) := by
  intro name conf
  refine ⟨?_, removeFragment_lines name conf⟩
  intro hname hconf hmem
  obtain ⟨hline, hterm⟩ := requireLine_isLine hname
  refine ⟨addFragment_not_mem hmem, ?_⟩
  rw [splitLines_append conf hconf (requireLine name),
      splitLines_single _ hline]

theorem claim_C10_frame_witness :
    (addFragment true "x".data "a\n".data =
      .ok ("a\n".data ++ requireLine "x".data) ∧
     splitLines ("a\n".data ++ requireLine "x".data) =
      splitLines "a\n".data ++ [requireLine "x".data]) ∧
    splitLines (removeFragment "x".data "a\n".data) =
      (splitLines "a\n".data).filter (fun l => l != requireLine "x".data) := by
  refine ⟨?_, (claim_C10_frame "x".data "a\n".data).2⟩
  exact (claim_C10_frame "x".data "a\n".data).1 (by decide)
    (Or.inr (by decide)) (by decide)

/-- Claim C5 counterexample: a fragment file whose first comment line has
empty content ("#" alone).  The code returns the SECOND comment line as the
summary and only the third as the description, instead of treating the first
comment line as the summary; so the summary is not "the first such line". -/
theorem claim_C5_counterexample :
    get_fragment_info "f" ("#\n#x\n#y\n".data) = .ok ("x".data, ["y".data]) ∧
    pyStrip (("#\n".data).drop 1) = [] ∧
    "x".data ≠ ([] : List Char) := by
  refine ⟨?_, by decide, by decide⟩
  rfl

/-- Claim C5 amended: over the leading block of comment lines, the summary is
the stripped content of the first comment line whose stripped content is
nonempty (comment lines stripping to nothing are skipped), and the
description collects the stripped contents of the following comment lines of
the block; when no nonempty summary is found, or nothing follows it in the
block, the error naming the offending file path is raised, and otherwise the
parsed summary and description are returned. -/
theorem claim_C5_fragment_info :
    ∀ (path : String) (content : List Char),
      ((fragmentCommentContents content).dropWhile (fun l => l.isEmpty) = [] →
        get_fragment_info path content = .error (fragmentErrMsg path)) ∧
      (∀ s, (fragmentCommentContents content).dropWhile (fun l => l.isEmpty) = [s] →
        get_fragment_info path content = .error (fragmentErrMsg path)) ∧
      (∀ s d, (fragmentCommentContents content).dropWhile (fun l => l.isEmpty) = s :: d →
        d ≠ [] → get_fragment_info path content = .ok (s, d)) ∧
      fragmentErrMsg path =
        "Please add a one-line summary followed by a description as #-prefixed comments at the beginning of " ++ path := by
  intro path content
  have hscan := scanLoop_empty_summary (splitLines content) []
  rw [show ((splitLines content).takeWhile (fun l => ['#'].isPrefixOf l)).map
        (fun l => pyStrip (l.drop 1)) = fragmentCommentContents content from rfl]
    at hscan
  refine ⟨?_, ?_, ?_, rfl⟩
  · intro hrest
    rw [hrest] at hscan
    unfold get_fragment_info
    rw [hscan]
    simp
  · intro s hrest
    rw [hrest] at hscan
    unfold get_fragment_info
    rw [hscan]
    simp
  · intro s d hrest hd
    have hs : s.isEmpty = false :=
      head_dropWhile_false _ (fragmentCommentContents content) s d hrest
    have hsne : s ≠ [] := by
      intro heq
      rw [heq] at hs
      simp at hs
    rw [hrest] at hscan
    unfold get_fragment_info
    rw [hscan]
    simp [hsne, hd]

theorem claim_C5_fragment_info_witness :
    get_fragment_info "frag.inc" ("# s\n# d\nX\n".data) =
      .ok ("s".data, ["d".data]) := by
  exact (claim_C5_fragment_info "frag.inc" ("# s\n# d\nX\n".data)).2.2.1
    "s".data ["d".data] (by decide) (by decide)

/-- Claim C8 counterexample.  For a file directly in the conf/fragments root
the walked directory has no trailing slash after conf/fragments, so splitting
on "conf/fragments/" finds no separator and the LAST piece is the whole
absolute directory path: the derived name is "/l/conf/fragments/f", not the
root-relative "f" (nor "/f").  Also, for a dotted filename a.b.inc the code
takes the part before the FIRST dot, "a", not the filename without its
extension, "a.b". -/
theorem claim_C8_counterexample :
    fragmentName "/l/conf/fragments".data "f.inc".data =
      "/l/conf/fragments/f".data ∧
    "/l/conf/fragments/f".data ≠ "/f".data ∧
    "/l/conf/fragments/f".data ≠ "f".data ∧
    fragmentName "/l/conf/fragments/net".data "a.b.inc".data = "net/a".data ∧
    "net/a".data ≠ "net/a.b".data := by
  refine ⟨by decide, by decide, by decide, by decide, by decide⟩

/-- Claim C8 amended: when the walked directory is pre ++ "conf/fragments/"
++ sub with the separator occurring nowhere before that occurrence and
nowhere in sub, the fragment name is sub ++ "/" ++ stem where stem is the
part of the filename before its first dot; when the separator does not occur
at all in the walked directory (in particular for the conf/fragments root
itself, which os.walk yields without a trailing slash), the whole directory
path is used in place of the relative one. -/
theorem claim_C8_fragment_name :
    ∀ pre sub stem ext : List Char,
      (∀ i, i < pre.length →
        cfSep.isPrefixOf ((pre ++ (cfSep ++ sub)).drop i) = false) →
      findSplit cfSep sub = none →
      '.' ∉ stem →
      fragmentName (pre ++ (cfSep ++ sub)) (stem ++ '.' :: ext) =
        sub ++ '/' :: stem ∧
      (∀ topdir, findSplit cfSep topdir = none →
        fragmentName topdir (stem ++ '.' :: ext) = topdir ++ '/' :: stem) := by
  intro pre sub stem ext hpre hsub hstem
  have hstemEq : splitFirst ['.'] (stem ++ '.' :: ext) = stem := by
    unfold splitFirst
    rw [findSplit_single stem ext hstem]
  constructor
  · have hfs : findSplit cfSep (pre ++ (cfSep ++ sub)) = some (pre, sub) :=
      findSplit_append (by decide) pre sub hpre
    unfold fragmentName
    rw [splitLast_step hfs]
    rw [show (pre, sub).2 = sub from rfl, splitLast_of_none hsub, hstemEq]
  · intro topdir htd
    unfold fragmentName
    rw [splitLast_of_none htd, hstemEq]

theorem claim_C8_fragment_name_witness :
    fragmentName ("/l".data ++ (cfSep ++ "net".data))
        ("f".data ++ '.' :: "inc".data) = "net".data ++ '/' :: "f".data :=
  (claim_C8_fragment_name "/l".data "net".data "f".data "inc".data
    (by decide) (by decide) (by decide)).1

/-- Claim C1 evidence (code bug): do_install_disk cannot see the caller
source parameters; it builds a fresh dictionary, hardcodes the loader to
grub, and therefore runs grub-bios-setup on the whole disk even when the
caller selected the syslinux loader.  The command trace below, for the
syslinux caller loader on an msdos table, ends with the grub-bios-setup
invocation that the claim says must not happen. -/
theorem claim_C1_install_disk_always_grub :
    do_install_disk (some "syslinux") "msdos" (some "/deploy") (fun _ => true)
      "/wk" "/wk/img.direct" =
    .ok [DiskCmd.dd "/deploy/syslinux/mbr.bin" "/wk/img.direct",
         DiskCmd.writeDeviceMap "/wk/device.map" "(hd0) /wk/img.direct",
         DiskCmd.grubBiosSetup "/wk/device.map" "/wk/hdd/boot/grub/i386-pc"
           "/wk/img.direct"] := by
  rfl

def fsUnderWork : String → Bool := fun p => p.data == "/cr/hdd/boot/splash.jpg".data

def fsAtRootOnly : String → Bool := fun p => p.data == "/hdd/boot/splash.jpg".data

def syslinuxConfHasSplash (r : Except String String) : Bool :=
  match r with
  | .ok c => hasSplashLine c
  | .error _ => false

/-- Claim C9 evidence (code bug): os.path.join(cr_workdir,
"/hdd/boot/splash.jpg") discards cr_workdir because the second component is
absolute, so the generated syslinux.cfg carries the menu background line
exactly when /hdd/boot/splash.jpg exists as an ABSOLUTE path: with the splash
image present at the workdir-relative location /cr/hdd/boot/splash.jpg the
line is absent, and with an image at the unrelated absolute path
/hdd/boot/splash.jpg the line is present. -/
theorem claim_C9_splash_path :
    fsUnderWork ("/cr" ++ "/hdd/boot/splash.jpg") = true ∧
    syslinuxConfHasSplash (do_configure_syslinux none (fun _ => none) "/cr"
      fsUnderWork "5" "/dev/sda2" "console=ttyS0" "bzImage") = false ∧
    fsAtRootOnly ("/cr" ++ "/hdd/boot/splash.jpg") = false ∧
    syslinuxConfHasSplash (do_configure_syslinux none (fun _ => none) "/cr"
      fsAtRootOnly "5" "/dev/sda2" "console=ttyS0" "bzImage") = true := by
  refine ⟨by decide, by decide, by decide, by decide⟩

/-- Claim C2: for both the configure and the prepare phase, a missing
loader-pcbios source parameter raises the missing-loader WicError (the
KeyError caught by the except clause) and a value other than grub or syslinux
raises the unrecognized-loader WicError, while for grub or syslinux the
phase defers entirely to the per-loader branch and raises neither of the
configuration errors itself. -/
theorem claim_C2_loader_errors :
    ∀ (lp : Option String) (g s gp sp : Except String Unit) (c : Int)
      (ex : Int → Int) (B : Int),
      (lp = none →
        do_configure_partition lp g s = .error missingLoaderMsg ∧
        do_prepare_partition lp gp sp c ex B = .error missingLoaderMsg) ∧
      (∀ l, lp = some l → l ≠ "grub" → l ≠ "syslinux" →
        do_configure_partition lp g s = .error (unrecognizedLoaderMsg l) ∧
        do_prepare_partition lp gp sp c ex B = .error (unrecognizedLoaderMsg l)) ∧
      (lp = some "grub" →
        do_configure_partition lp g s = g ∧
        (gp = .ok () → ∃ res, do_prepare_partition lp gp sp c ex B = .ok res)) ∧
      (lp = some "syslinux" →
        do_configure_partition lp g s = s ∧
        (sp = .ok () → ∃ res, do_prepare_partition lp gp sp c ex B = .ok res)) := by
  intro lp g s gp sp c ex B
  refine ⟨?_, ?_, ?_, ?_⟩
  · rintro rfl
    exact ⟨rfl, rfl⟩
  · rintro l rfl hg hs
    constructor
    · simp [do_configure_partition, hg, hs]
    · simp [do_prepare_partition, hg, hs, Except.bind]
  · rintro rfl
    refine ⟨rfl, ?_⟩
    rintro rfl
    exact ⟨⟨c + (if ex c < B then B else ex c),
      some "grub" == some "syslinux"⟩, rfl⟩
  · rintro rfl
    refine ⟨by simp [do_configure_partition], ?_⟩
    rintro rfl
    exact ⟨⟨c + (if ex c < B then B else ex c),
      some "syslinux" == some "syslinux"⟩, by
        simp [do_prepare_partition, Except.bind]⟩

theorem claim_C2_loader_errors_witness :
    do_configure_partition none (.ok ()) (.ok ()) = .error missingLoaderMsg ∧
    do_configure_partition (some "uboot") (.ok ()) (.ok ()) =
      .error (unrecognizedLoaderMsg "uboot") ∧
    do_prepare_partition (some "uboot") (.ok ()) (.ok ()) 10 (fun _ => 0) 16 =
      .error (unrecognizedLoaderMsg "uboot") ∧
    do_configure_partition (some "grub") (.ok ()) (.ok ()) = .ok () ∧
    do_configure_partition (some "syslinux") (.error "grub broke") (.ok ()) =
      .ok () := by
  refine ⟨?_, ?_, ?_, ?_, ?_⟩
  · exact ((claim_C2_loader_errors none (.ok ()) (.ok ()) (.ok ()) (.ok ())
      10 (fun _ => 0) 16).1 rfl).1
  · exact ((claim_C2_loader_errors (some "uboot") (.ok ()) (.ok ()) (.ok ())
      (.ok ()) 10 (fun _ => 0) 16).2.1 "uboot" rfl (by decide) (by decide)).1
  · exact ((claim_C2_loader_errors (some "uboot") (.ok ()) (.ok ()) (.ok ())
      (.ok ()) 10 (fun _ => 0) 16).2.1 "uboot" rfl (by decide) (by decide)).2
  · exact ((claim_C2_loader_errors (some "grub") (.ok ()) (.ok ()) (.ok ())
      (.ok ()) 10 (fun _ => 0) 16).2.2.1 rfl).1
  · exact ((claim_C2_loader_errors (some "syslinux") (.error "grub broke")
      (.ok ()) (.ok ()) (.ok ()) 10 (fun _ => 0) 16).2.2.2 rfl).1

/-- Claim C3: whenever do_prepare_partition succeeds, the block count handed
to the mkdosfs formatter is the installed-content block count plus the
maximum of the caller-supplied extra block allowance (evaluated at that
content size) and the BOOTDD_EXTRA_SPACE floor. -/
theorem claim_C3_dosfs_blocks :
    ∀ (lp : Option String) (gp sp : Except String Unit) (c : Int)
      (ex : Int → Int) (B : Int) (res : PrepareResult),
      do_prepare_partition lp gp sp c ex B = .ok res →
      res.dosfsBlocks = c + max (ex c) B := by
  intro lp gp sp c ex B res h
  have hkey : ∀ u : Unit,
      res = { dosfsBlocks := c + (if ex c < B then B else ex c),
              syslinuxInstalled := lp == some "syslinux" } →
      res.dosfsBlocks = c + max (ex c) B := by
    intro _ hres
    subst hres
    show c + (if ex c < B then B else ex c) = c + max (ex c) B
    rcases lt_or_le (ex c) B with hlt | hle
    · rw [if_pos hlt, max_eq_right hlt.le]
    · rw [if_neg (not_lt.mpr hle), max_eq_left hle]
  cases lp with
  | none => simp [do_prepare_partition, Except.bind] at h
  | some l =>
    by_cases hg : l = "grub"
    · subst hg
      cases gp with
      | error e => simp [do_prepare_partition, Except.bind] at h
      | ok u =>
        simp only [do_prepare_partition, if_pos rfl, Except.bind] at h
        exact hkey () (Except.ok.inj h).symm
    · by_cases hs : l = "syslinux"
      · subst hs
        cases sp with
        | error e => simp [do_prepare_partition, Except.bind, hg] at h
        | ok u =>
          simp only [do_prepare_partition, if_neg hg, if_pos rfl,
            Except.bind] at h
          exact hkey () (Except.ok.inj h).symm
      · simp [do_prepare_partition, Except.bind, hg, hs] at h

theorem claim_C3_dosfs_blocks_witness :
    do_prepare_partition (some "syslinux") (.ok ()) (.ok ()) 100 (fun _ => 3)
      16 = .ok { dosfsBlocks := 116, syslinuxInstalled := true } ∧
    ({ dosfsBlocks := 116, syslinuxInstalled := true } :
      PrepareResult).dosfsBlocks = 100 + max ((fun _ : Int => (3 : Int)) 100) 16 := by
  constructor
  · rfl
  · exact claim_C3_dosfs_blocks (some "syslinux") (.ok ()) (.ok ()) 100
      (fun _ => 3) 16 { dosfsBlocks := 116, syslinuxInstalled := true } (by rfl)

theorem updAll_forall₂ :
    ∀ (repos repos' : List (String × List (String × JVal))),
      updAll repos = some repos' →
      List.Forall₂ (fun p q => p.1 = q.1 ∧ updateRepo p.2 = some q.2)
        repos repos' := by
  intro repos
  induction repos with
  | nil =>
    intro repos' h
    obtain rfl : ([] : List (String × List (String × JVal))) = repos' := by
      simpa [updAll] using h
    exact List.Forall₂.nil
  | cons p rest ih =>
    intro repos' h
    obtain ⟨n, r⟩ := p
    rw [updAll] at h
    cases hu : updateRepo r with
    | none => rw [hu] at h; simp at h
    | some r' =>
      cases ha : updAll rest with
      | none => rw [hu, ha] at h; simp at h
      | some rest' =>
        rw [hu, ha] at h
        simp only [Option.some.injEq] at h
        subst h
        exact List.Forall₂.cons ⟨rfl, hu⟩ (ih rest' ha)

/-- Characterization of the statement sequence of the do_write body (the
behaviour the body would have if the module imported os and bb): the
layer-sources exception for an empty repo mapping, and otherwise the
mkdir-if-missing, sorted-and-indented manifest of shape version 1.0 with the
synthetic origin remote per source, and the setup-layers run. -/
theorem do_write_body_spec :
    ∀ (destdirExists : Bool) (repos : List (String × List (String × JVal))),
      (repos = [] →
        do_write_body destdirExists repos =
          ((if destdirExists then [] else [WriteEffect.mkdirDest]),
            .error "Could not determine layer sources")) ∧
      (∀ repos', repos ≠ [] → updAll repos = some repos' →
        do_write_body destdirExists repos =
          ((if destdirExists then [] else [WriteEffect.mkdirDest]) ++
            [WriteEffect.writeJson (layersManifest repos') true 4,
             WriteEffect.runSetupLayers], .ok ()) ∧
        getPath (layersManifest repos') ["version"] = some (JVal.str "1.0") ∧
        List.Forall₂ (fun (p q : String × List (String × JVal)) =>
          p.1 = q.1 ∧
          ∀ origin, jlookup p.2 "originpath" = some origin →
            getPath (JVal.obj q.2)
              ["git-remote", "remotes", "origin", "uri"] = some origin)
          repos repos') := by
  intro destdirExists repos
  constructor
  · rintro rfl
    rfl
  · intro repos' hne hupd
    refine ⟨?_, ?_, ?_⟩
    · unfold do_write_body
      rw [if_neg (by simpa [List.isEmpty_iff] using hne), hupd]
    · simp [layersManifest, getPath, jlookup, List.find?]
    · refine (updAll_forall₂ repos repos' hupd).imp ?_
      rintro p q ⟨h1, h2⟩
      exact ⟨h1, fun origin ho => updateRepo_shape h2 origin ho⟩

def demoRepo : List (String × JVal) :=
  [("originpath", JVal.str "/srv/poky"), ("git-remote", JVal.obj [])]

def demoRepoUpdated : List (String × JVal) :=
  [("originpath", JVal.str "/srv/poky"),
   ("git-remote", JVal.obj [("remotes", JVal.obj
     [("origin", JVal.obj [("uri", JVal.str "/srv/poky")])])])]

/-- Claim C4 evidence (code bug): the oe-local-copy module imports only
logging and json, so every do_write call raises NameError when its first
statement dereferences os, with no effect performed: neither the claimed
layer-sources exception for an empty mapping, nor the claimed
mkdir/manifest/setup-layers path for a nonempty one, is reachable.  The last
two conjuncts evaluate the statement body itself at the same inputs, showing
the claim describes exactly what the body would do once the missing imports
are added, i.e. the claim is the evident intent and the missing import the
slip. -/
theorem claim_C4_do_write_name_error :
    do_write false [("meta", demoRepo)] =
      ([], .error "NameError: name os is not defined") ∧
    do_write true [] = ([], .error "NameError: name os is not defined") ∧
    do_write_body true [] = ([], .error "Could not determine layer sources") ∧
    do_write_body false [("meta", demoRepo)] =
      ([WriteEffect.mkdirDest,
        WriteEffect.writeJson (layersManifest [("meta", demoRepoUpdated)])
          true 4,
        WriteEffect.runSetupLayers], .ok ()) := by
  refine ⟨rfl, rfl, (do_write_body_spec true []).1 rfl, ?_⟩
  exact ((do_write_body_spec false [("meta", demoRepo)]).2
    [("meta", demoRepoUpdated)] (by simp) (by rfl)).1
